import Mathlib

/-!
Verification of the stylesheet function/mixin expansion engine of
vite-plugin-functions-mixins.

The engine operates on raw text.  We model text as `List Char` and
translate each function of `src/plugin/src/index.ts` (and `mergeRanges`
of the sibling variant) into an executable Lean definition.  Regex-driven
scanning is translated into explicit character-level scanners with the
same matching semantics (leftmost match, greedy character classes,
scan resumption at the position the JavaScript regex engine would use).
JavaScript exceptions are modelled with `Except PError`; every scanning
loop carries explicit fuel that the wrapper instantiates with a bound
(`length + 1`) that is provably sufficient, so all definitions compute
by kernel reduction.
-/

abbrev Str := List Char

def toStr (s : String) : Str := s.data

/-- Errors thrown by the engine: `Unmatched brace at position ...` from
`findMatchingBrace`, and `Missing "result:" in function body` from
`extractResult`. -/
inductive PError where
  | unmatchedBrace (pos : Nat)
  | missingResult
deriving DecidableEq, Repr

instance {e a : Type} [DecidableEq e] [DecidableEq a] : DecidableEq (Except e a)
  | .ok x, .ok y => if h : x = y then .isTrue (by rw [h]) else .isFalse (by simp [h])
  | .ok _, .error _ => .isFalse (by simp)
  | .error _, .ok _ => .isFalse (by simp)
  | .error x, .error y => if h : x = y then .isTrue (by rw [h]) else .isFalse (by simp [h])

structure FunctionParam where
  name : Str
  defaultValue : Option Str
deriving DecidableEq, Repr

structure FunctionDef where
  name : Str
  params : List FunctionParam
  body : Str
deriving DecidableEq, Repr

structure MixinDef where
  name : Str
  params : List FunctionParam
  body : Str
  hasContents : Bool
deriving DecidableEq, Repr

/-- A registry models a JavaScript `Map`: `set` appends and `get` returns
the value of the last entry with the given key (last write wins). -/
abbrev FunctionRegistry := List (Str × FunctionDef)

abbrev MixinRegistry := List (Str × MixinDef)

def lookupLast {α : Type} (m : List (Str × α)) (k : Str) : Option α :=
  (m.reverse.find? (fun e => e.1 == k)).map (·.2)

def MAX_RECURSION_DEPTH : Nat := 10

def isOpenBracket (c : Char) : Bool := c == '(' || c == '{' || c == '['

def isCloseBracket (c : Char) : Bool := c == ')' || c == '}' || c == ']'

/-- Depth contribution of one character under the uniform three-family
bracket counting used by the engine. -/
def braceDelta (c : Char) : Int :=
  if isOpenBracket c then 1 else if isCloseBracket c then -1 else 0

/-- The JavaScript `\s` class (restricted to the code points that can
occur in the stylesheet dialect). -/
def isSpace (c : Char) : Bool :=
  c == ' ' || c == '\t' || c == '\n' || c == '\r' || c == '\x0b' || c == '\x0c' || c == '\u00a0'

/-- The JavaScript character class `[\w-]`. -/
def isWordDash (c : Char) : Bool := c.isAlphanum || c == '_' || c == '-'

/-- JavaScript `code.slice(a, b)` for nonnegative indices. -/
def sliceJS (code : Str) (a b : Nat) : Str := (code.take b).drop a

/-- JavaScript `String.prototype.trim`. -/
def trimStr (l : Str) : Str := ((l.dropWhile isSpace).reverse.dropWhile isSpace).reverse

def countNewlines (l : Str) : Nat := l.countP (fun c => c == '\n')

/-- `findMatchingBrace` body: scan from offset `i` with running `depth`,
incrementing on any opening bracket, decrementing on any closing bracket,
and returning the first offset at which the depth reaches zero. -/
def findMatchingBraceAux : Str → Nat → Int → Option Nat
  | [], _, _ => none
  | c :: rest, i, depth =>
    let depth' := depth + braceDelta c
    if depth' = 0 then some i else findMatchingBraceAux rest (i + 1) depth'

/-- `findMatchingBrace(code, start)`: `start` is the offset immediately
after an opening bracket (implicit depth 1); throws
`Unmatched brace at position start` when no closing offset exists. -/
def findMatchingBrace (code : Str) (start : Nat) : Except PError Nat :=
  match findMatchingBraceAux (code.drop start) start 1 with
  | some i => .ok i
  | none => .error (.unmatchedBrace start)

/-- `splitByComma` body: the running bracket depth is updated before the
comma test, each comma at depth zero pushes the trimmed current chunk
(also when empty), and a final chunk is pushed only when its trim is
nonempty. -/
def splitByCommaGo : Str → Int → Str → List Str → List Str
  | [], _, current, parts =>
    if (trimStr current).isEmpty then parts else parts ++ [trimStr current]
  | c :: rest, depth, current, parts =>
    let depth' := depth + braceDelta c
    if c == ',' && depth' == 0 then
      splitByCommaGo rest depth' [] (parts ++ [trimStr current])
    else
      splitByCommaGo rest depth' (current ++ [c]) parts

def splitByComma (str : Str) : List Str := splitByCommaGo str 0 [] []

/-- Literal matcher: returns the remainder of `l` after the literal. -/
def expectLit : Str → Str → Option Str
  | [], l => some l
  | _ :: _, [] => none
  | c :: cs, x :: xs => if x = c then expectLit cs xs else none

/-- The leading-identifier capture `/^(--[\w-]+)/` used by `parseParams`
to strip type annotations: on failure the raw name part is kept. -/
def leadingDashName (namePart : Str) : Str :=
  match namePart with
  | '-' :: '-' :: r =>
    let run := r.takeWhile isWordDash
    if run.isEmpty then namePart else '-' :: '-' :: run
  | _ => namePart

def parseParamsGo : List Str → List FunctionParam → Bool → List FunctionParam × Bool
  | [], params, hasContents => (params, hasContents)
  | p :: rest, params, hasContents =>
    if trimStr p == toStr "@contents" then
      parseParamsGo rest params true
    else
      let params' :=
        match p.findIdx? (fun c => c == ':') with
        | some i =>
          let name := leadingDashName (trimStr (p.take i))
          if name.isEmpty then params
          else params ++ [⟨name, some (trimStr (p.drop (i + 1)))⟩]
        | none =>
          let name := leadingDashName p
          if name.isEmpty then params else params ++ [⟨name, none⟩]
      parseParamsGo rest params' hasContents

/-- `parseParams(paramStr)`: comma-split the raw parameter list, detect the
reserved `@contents` marker, and parse `name[: default]` pairs. -/
def parseParams (paramStr : Str) : List FunctionParam × Bool :=
  parseParamsGo (splitByComma paramStr) [] false

/-- One attempt of the regex `/result\s*:\s*([^;]+)(?:;|$)/` anchored at
the current position: the capture is the maximal nonempty run of
non-semicolon characters after the colon (leading whitespace immaterial
because the caller trims). -/
def resultClauseAt (l : Str) : Option Str :=
  match expectLit (toStr "result") l with
  | none => none
  | some r1 =>
    match r1.dropWhile isSpace with
    | ':' :: r2 =>
      let run := r2.takeWhile (fun c => !(c == ';'))
      if run.isEmpty then none else some (trimStr run)
    | _ => none

def extractResultGo : Nat → Str → Option Str
  | 0, _ => none
  | fuel + 1, l =>
    match resultClauseAt l with
    | some v => some v
    | none =>
      match l with
      | [] => none
      | _ :: rest => extractResultGo fuel rest

/-- `extractResult(body)`: first match of `/result\s*:\s*([^;]+)(?:;|$)/`,
trimmed; throws the missing-result error when the body has no match. -/
def extractResult (body : Str) : Except PError Str :=
  match extractResultGo (body.length + 1) body with
  | some v => .ok v
  | none => .error .missingResult

/-- One attempt of `/head\(\s*(--[\w-]+)\s*(?:,\s*([^)]+))?\s*\)/` anchored
at the current position (`head` is `var` or `env`).  Returns the captured
name, the optional raw fallback capture and the remainder after the
closing parenthesis. -/
def refMatchAt (head : Str) (l : Str) : Option (Str × Option Str × Str) :=
  match expectLit (head ++ toStr "(") l with
  | none => none
  | some r1 =>
    match r1.dropWhile isSpace with
    | '-' :: '-' :: r2 =>
      let run := r2.takeWhile isWordDash
      if run.isEmpty then none
      else
        match (r2.dropWhile isWordDash).dropWhile isSpace with
        | ')' :: r4 => some ('-' :: '-' :: run, none, r4)
        | ',' :: r5 =>
          let fb := r5.takeWhile (fun c => !(c == ')'))
          if fb.isEmpty then none
          else
            match r5.dropWhile (fun c => !(c == ')')) with
            | ')' :: r6 => some ('-' :: '-' :: run, some fb, r6)
            | _ => none
        | _ => none
    | _ => none

/-- Global-replace driver shared by `substituteVars` and
`substituteEnvVars`: a hit is replaced by the mapped value, else the
trimmed fallback, else the matched text itself; elsewhere the scan
advances one character. -/
def replaceRefsGo (head : Str) (argMap : List (Str × Option Str)) : Nat → Str → Str
  | 0, l => l
  | _ + 1, [] => []
  | fuel + 1, c :: rest =>
    match refMatchAt head (c :: rest) with
    | some (nm, fb, rem) =>
      let matched := (c :: rest).take ((c :: rest).length - rem.length)
      let replacement :=
        match lookupLast argMap nm with
        | some (some v) => v
        | _ =>
          match fb with
          | some f => trimStr f
          | none => matched
      replacement ++ replaceRefsGo head argMap fuel rem
    | none => c :: replaceRefsGo head argMap fuel rest

/-- The `args[i] ?? param.defaultValue` map of the substitution
functions; an entry is `none` exactly when the JavaScript map holds
`undefined`. -/
def buildArgMap (params : List FunctionParam) (args : List Str) : List (Str × Option Str) :=
  params.enum.map (fun ip =>
    (ip.2.name, match args.get? ip.1 with
      | some a => some a
      | none => ip.2.defaultValue))

/-- `substituteVars(template, params, args)`: global replacement of
`var(--name[, fallback])` references. -/
def substituteVars (template : Str) (params : List FunctionParam) (args : List Str) : Str :=
  replaceRefsGo (toStr "var") (buildArgMap params args) (template.length + 1) template

/-- `substituteEnvVars(template, params, args)`: global replacement of
`env(--name[, fallback])` references. -/
def substituteEnvVars (template : Str) (params : List FunctionParam) (args : List Str) : Str :=
  replaceRefsGo (toStr "env") (buildArgMap params args) (template.length + 1) template

structure FnDeclMatch where
  name : Str
  paramStr : Str
  rem : Str
deriving DecidableEq, Repr

/-- Tail of the function-declaration regex after the parameter list: the
optional `(?:\s*returns\s*[^{]+)?` group (greedy, tried first) followed by
`\s*\{`.  `rem` is the remainder after the opening body brace. -/
def fnDeclTail (nm ps : Str) (l : Str) : Option FnDeclMatch :=
  let withReturns :=
    match expectLit (toStr "returns") (l.dropWhile isSpace) with
    | none => none
    | some r5 =>
      let ty := r5.takeWhile (fun c => !(c == '{'))
      if ty.isEmpty then none
      else
        match r5.dropWhile (fun c => !(c == '{')) with
        | '{' :: r6 => some (⟨nm, ps, r6⟩ : FnDeclMatch)
        | _ => none
  match withReturns with
  | some m => some m
  | none =>
    match l.dropWhile isSpace with
    | '{' :: r6 => some ⟨nm, ps, r6⟩
    | _ => none

/-- One attempt of `/@function\s+(--[\w-]+)\s*\(([^)]*)\)(?:\s*returns\s*[^{]+)?\s*\{/`
anchored at the current position. -/
def fnDeclMatchAt (l : Str) : Option FnDeclMatch :=
  match expectLit (toStr "@function") l with
  | none => none
  | some r1 =>
    if (r1.takeWhile isSpace).isEmpty then none
    else
      match r1.dropWhile isSpace with
      | '-' :: '-' :: r2 =>
        let run := r2.takeWhile isWordDash
        if run.isEmpty then none
        else
          match ((r2.dropWhile isWordDash).dropWhile isSpace) with
          | '(' :: r3 =>
            let ps := r3.takeWhile (fun c => !(c == ')'))
            match r3.dropWhile (fun c => !(c == ')')) with
            | ')' :: r4 => fnDeclTail ('-' :: '-' :: run) ps r4
            | _ => none
          | _ => none
      | _ => none

/-- One attempt of `/@mixin\s+(--[\w-]+)\s*\(([^)]*)\)\s*\{/` anchored at
the current position (the parameter list is mandatory in this variant). -/
def mixinDeclMatchAt (l : Str) : Option FnDeclMatch :=
  match expectLit (toStr "@mixin") l with
  | none => none
  | some r1 =>
    if (r1.takeWhile isSpace).isEmpty then none
    else
      match r1.dropWhile isSpace with
      | '-' :: '-' :: r2 =>
        let run := r2.takeWhile isWordDash
        if run.isEmpty then none
        else
          match ((r2.dropWhile isWordDash).dropWhile isSpace) with
          | '(' :: r3 =>
            let ps := r3.takeWhile (fun c => !(c == ')'))
            match r3.dropWhile (fun c => !(c == ')')) with
            | ')' :: r4 =>
              match r4.dropWhile isSpace with
              | '{' :: r6 => some ⟨'-' :: '-' :: run, ps, r6⟩
              | _ => none
            | _ => none
          | _ => none
      | _ => none

/-- Regex-engine search: try the anchored matcher at `i`, `i + 1`, ... and
return the first hit together with its start offset. -/
def nextMatchFromAux {μ : Type} (matchAt : Str → Option μ) (code : Str) :
    Nat → Nat → Option (Nat × μ)
  | 0, _ => none
  | fuel + 1, i =>
    match matchAt (code.drop i) with
    | some m => some (i, m)
    | none => nextMatchFromAux matchAt code fuel (i + 1)

def nextMatchFrom {μ : Type} (matchAt : Str → Option μ) (code : Str) (i : Nat) :
    Option (Nat × μ) :=
  nextMatchFromAux matchAt code (code.length - i) i

/-- Loop body of `extractFunctions` and `extractMixins` (`matchAt` selects
the declaration regex, `mkDef` builds the registry entry): each match
registers a definition whose body runs to the matching close brace, records
the removal span, and resumes the regex scan right after the opening brace. -/
def extractGo {δ : Type} (matchAt : Str → Option FnDeclMatch)
    (mkDef : Str → Str → Str → δ) (code : Str) :
    Nat → Nat → List (Str × δ) → List (Nat × Nat) →
    Except PError (List (Str × δ) × List (Nat × Nat))
  | 0, _, reg, rems => .ok (reg, rems)
  | fuel + 1, scanPos, reg, rems =>
    match nextMatchFrom matchAt code scanPos with
    | none => .ok (reg, rems)
    | some (s, m) =>
      let bodyStart := code.length - m.rem.length
      match findMatchingBrace code bodyStart with
      | .error e => .error e
      | .ok bodyEnd =>
        extractGo matchAt mkDef code fuel bodyStart
          (reg ++ [(m.name, mkDef m.name m.paramStr (sliceJS code bodyStart bodyEnd))])
          (rems ++ [(s, bodyEnd + 1)])

/-- `extractFunctions(code, registry)`: returns the extended registry and
the removal spans. -/
def extractFunctions (code : Str) (registry : FunctionRegistry) :
    Except PError (FunctionRegistry × List (Nat × Nat)) :=
  extractGo fnDeclMatchAt
    (fun name paramStr body => (⟨name, (parseParams paramStr).1, body⟩ : FunctionDef))
    code (code.length + 1) 0 registry []

/-- `extractMixins(code, registry)`: returns the extended registry and the
removal spans. -/
def extractMixins (code : Str) (registry : MixinRegistry) :
    Except PError (MixinRegistry × List (Nat × Nat)) :=
  extractGo mixinDeclMatchAt
    (fun name paramStr body =>
      (⟨name, (parseParams paramStr).1, body, (parseParams paramStr).2⟩ : MixinDef))
    code (code.length + 1) 0 registry []

/-- One attempt of the call regex `/(--[\w-]+)\(/` anchored at the current
position: returns the captured name and the remainder after the opening
parenthesis. -/
def callMatchAt (l : Str) : Option (Str × Str) :=
  match expectLit (toStr "--") l with
  | none => none
  | some rest =>
    let run := rest.takeWhile isWordDash
    if run.isEmpty then none
    else
      match rest.dropWhile isWordDash with
      | d :: rem => if d = '(' then some ('-' :: '-' :: run, rem) else none
      | [] => none

/-- Loop body of `resolveOnce`: the regex scan resumes after the opening
parenthesis of every match (`scanPos`), while `lastIdx` tracks the end of
the last emitted region exactly as in the source (for a resolved call it
jumps past the closing parenthesis, so the two cursors differ). -/
def resolveOnceGo (code : Str) (registry : FunctionRegistry) :
    Nat → Nat → Nat → Str → Except PError Str
  | 0, _, lastIdx, acc => .ok (acc ++ code.drop lastIdx)
  | fuel + 1, scanPos, lastIdx, acc =>
    match nextMatchFrom callMatchAt code scanPos with
    | none => .ok (acc ++ code.drop lastIdx)
    | some (s, (fnName, rem)) =>
      let argsStart := code.length - rem.length
      let acc1 := acc ++ sliceJS code lastIdx s
      match lookupLast registry fnName with
      | none =>
        resolveOnceGo code registry fuel argsStart argsStart (acc1 ++ fnName ++ toStr "(")
      | some def_ =>
        match findMatchingBrace code argsStart with
        | .error e => .error e
        | .ok argsEnd =>
          match extractResult def_.body with
          | .error e => .error e
          | .ok resExpr =>
            resolveOnceGo code registry fuel argsStart (argsEnd + 1)
              (acc1 ++ substituteVars resExpr def_.params
                (splitByComma (sliceJS code argsStart argsEnd)))

/-- `resolveOnce(code, registry)`: one pass of function-call resolution. -/
def resolveOnce (code : Str) (registry : FunctionRegistry) : Except PError Str :=
  resolveOnceGo code registry (code.length + 1) 0 0 []

def resolveFunctionCallsGo (registry : FunctionRegistry) : Nat → Str → Except PError Str
  | 0, result => .ok result
  | fuel + 1, result =>
    match resolveOnce result registry with
    | .error e => .error e
    | .ok next => if next == result then .ok result else resolveFunctionCallsGo registry fuel next

/-- `resolveFunctionCalls(code, registry)`: iterate `resolveOnce` to a fixed
point or the 10-iteration ceiling. -/
def resolveFunctionCalls (code : Str) (registry : FunctionRegistry) : Except PError Str :=
  resolveFunctionCallsGo registry MAX_RECURSION_DEPTH code

structure ApplyMatch where
  mixinName : Str
  argsStr : Option Str
  contentsBlock : Option Str
  rem : Str
deriving DecidableEq, Repr

/-- Terminator of the apply regex, `\s*(?:\{([^}]*)\}\s*;?|;)`: either a
brace block (whose capture stops at the first closing brace) with optional
trailing semicolon, or a bare semicolon. -/
def applyTerminator (nm : Str) (args : Option Str) (l : Str) : Option ApplyMatch :=
  match l.dropWhile isSpace with
  | '{' :: r5 =>
    let inner := r5.takeWhile (fun c => !(c == '}'))
    match r5.dropWhile (fun c => !(c == '}')) with
    | '}' :: r6 =>
      match r6.dropWhile isSpace with
      | ';' :: r8 => some ⟨nm, args, some inner, r8⟩
      | r7 => some ⟨nm, args, some inner, r7⟩
    | _ => none
  | ';' :: r5 => some ⟨nm, args, none, r5⟩
  | _ => none

/-- One attempt of
`/@apply\s+(--[\w-]+)(?:\s*\(([^)]*)\))?\s*(?:\{([^}]*)\}\s*;?|;)/`
anchored at the current position.  An opening parenthesis with no closing
one fails the whole attempt (backtracking cannot rescue it, since the
terminator cannot start at a parenthesis). -/
def applyMatchAt (l : Str) : Option ApplyMatch :=
  match expectLit (toStr "@apply") l with
  | none => none
  | some r1 =>
    if (r1.takeWhile isSpace).isEmpty then none
    else
      match r1.dropWhile isSpace with
      | '-' :: '-' :: r2 =>
        let run := r2.takeWhile isWordDash
        if run.isEmpty then none
        else
          let nm := '-' :: '-' :: run
          let afterName := r2.dropWhile isWordDash
          match afterName.dropWhile isSpace with
          | '(' :: r3 =>
            let argsRun := r3.takeWhile (fun c => !(c == ')'))
            match r3.dropWhile (fun c => !(c == ')')) with
            | ')' :: r4 => applyTerminator nm (some argsRun) r4
            | _ => none
          | _ => applyTerminator nm none afterName
      | _ => none

/-- One attempt of `/@contents\s*(?:\{[^}]*\})?\s*;?/` anchored at the
current position; every component after the literal is optional, so the
attempt always succeeds and only the remainder varies. -/
def contentsMatchAt (l : Str) : Option Str :=
  match expectLit (toStr "@contents") l with
  | none => none
  | some r1 =>
    match r1.dropWhile isSpace with
    | '{' :: r3 =>
      match r3.dropWhile (fun c => !(c == '}')) with
      | '}' :: r4 =>
        match r4.dropWhile isSpace with
        | ';' :: r6 => some r6
        | r5 => some r5
      | _ => some ('{' :: r3)
    | ';' :: r3 => some r3
    | r2 => some r2

/-- One attempt of `/@contents\s*\{([^}]*)\}\s*;?/` (brace block required),
returning the inner capture used as the `$1` replacement. -/
def contentsDefaultMatchAt (l : Str) : Option (Str × Str) :=
  match expectLit (toStr "@contents") l with
  | none => none
  | some r1 =>
    match r1.dropWhile isSpace with
    | '{' :: r3 =>
      let inner := r3.takeWhile (fun c => !(c == '}'))
      match r3.dropWhile (fun c => !(c == '}')) with
      | '}' :: r4 =>
        match r4.dropWhile isSpace with
        | ';' :: r6 => some (inner, r6)
        | r5 => some (inner, r5)
      | _ => none
    | _ => none

/-- One attempt of `/@contents\s*;?/` anchored at the current position. -/
def contentsBareMatchAt (l : Str) : Option Str :=
  match expectLit (toStr "@contents") l with
  | none => none
  | some r1 =>
    match r1.dropWhile isSpace with
    | ';' :: r3 => some r3
    | r2 => some r2

/-- Global replace of `/@contents\s*(?:\{[^}]*\})?\s*;?/` by the supplied
(trimmed) contents block. -/
def replaceContentsGo (replacement : Str) : Nat → Str → Str
  | 0, l => l
  | _ + 1, [] => []
  | fuel + 1, c :: rest =>
    match contentsMatchAt (c :: rest) with
    | some rem => replacement ++ replaceContentsGo replacement fuel rem
    | none => c :: replaceContentsGo replacement fuel rest

/-- Global replace of `/@contents\s*\{([^}]*)\}\s*;?/` by its own `$1`
capture (the placeholder default). -/
def replaceContentsDefaultGo : Nat → Str → Str
  | 0, l => l
  | _ + 1, [] => []
  | fuel + 1, c :: rest =>
    match contentsDefaultMatchAt (c :: rest) with
    | some (inner, rem) => inner ++ replaceContentsDefaultGo fuel rem
    | none => c :: replaceContentsDefaultGo fuel rest

/-- Global replace of `/@contents\s*;?/` by the empty string. -/
def replaceContentsBareGo : Nat → Str → Str
  | 0, l => l
  | _ + 1, [] => []
  | fuel + 1, c :: rest =>
    match contentsBareMatchAt (c :: rest) with
    | some rem => replaceContentsBareGo fuel rem
    | none => c :: replaceContentsBareGo fuel rest

/-- The `@contents` handling of `resolveMixinsOnce` applied to the
substituted mixin body. -/
def applyContents (def_ : MixinDef) (contentsBlock : Option Str) (substituted : Str) : Str :=
  if def_.hasContents then
    match contentsBlock with
    | some cb => replaceContentsGo (trimStr cb) (substituted.length + 1) substituted
    | none =>
      let s1 := replaceContentsDefaultGo (substituted.length + 1) substituted
      replaceContentsBareGo (s1.length + 1) s1
  else substituted

/-- Loop body of `resolveMixinsOnce`: an unknown mixin is replaced by the
inline diagnostic comment; a known mixin is replaced by its body after
`env()` substitution and `@contents` handling.  Both cursors resume at the
end of the regex match. -/
def resolveMixinsOnceGo (code : Str) (registry : MixinRegistry) :
    Nat → Nat → Nat → Str → Str
  | 0, _, lastIdx, acc => acc ++ code.drop lastIdx
  | fuel + 1, scanPos, lastIdx, acc =>
    match nextMatchFrom applyMatchAt code scanPos with
    | none => acc ++ code.drop lastIdx
    | some (s, m) =>
      let matchEnd := code.length - m.rem.length
      let acc1 := acc ++ sliceJS code lastIdx s
      match lookupLast registry m.mixinName with
      | none =>
        resolveMixinsOnceGo code registry fuel matchEnd matchEnd
          (acc1 ++ toStr "/* Unknown mixin: " ++ m.mixinName ++ toStr " */")
      | some def_ =>
        let args := match m.argsStr with | some a => splitByComma a | none => []
        let substituted := substituteEnvVars def_.body def_.params args
        resolveMixinsOnceGo code registry fuel matchEnd matchEnd
          (acc1 ++ applyContents def_ m.contentsBlock substituted)

/-- `resolveMixinsOnce(code, registry)`: one pass of mixin application
resolution (never throws). -/
def resolveMixinsOnce (code : Str) (registry : MixinRegistry) : Str :=
  resolveMixinsOnceGo code registry (code.length + 1) 0 0 []

def resolveMixinApplicationsGo (registry : MixinRegistry) : Nat → Str → Str
  | 0, result => result
  | fuel + 1, result =>
    let next := resolveMixinsOnce result registry
    if next == result then result else resolveMixinApplicationsGo registry fuel next

/-- `resolveMixinApplications(code, registry)`: iterate `resolveMixinsOnce`
to a fixed point or the 10-iteration ceiling. -/
def resolveMixinApplications (code : Str) (registry : MixinRegistry) : Str :=
  resolveMixinApplicationsGo registry MAX_RECURSION_DEPTH code

/-- Blanking of one slice: `replace(/[^\n]/g, "")` keeps only newlines. -/
def blankNonNewlines (l : Str) : Str := l.filter (fun c => c == '\n')

/-- `stripDefinitions(code, removals)`: process the removal spans in
reversed list order, replacing each slice by its newline-only blank. -/
def stripDefinitions (code : Str) (removals : List (Nat × Nat)) : Str :=
  removals.reverse.foldl
    (fun result r =>
      result.take r.1 ++ blankNonNewlines (sliceJS result r.1 r.2) ++ result.drop r.2)
    code

/-- Sort of `mergeRanges`: JavaScript `sort((a, b) => a[0] - b[0])` is a
stable sort by start offset, which `List.mergeSort` implements. -/
def sortRanges (ranges : List (Nat × Nat)) : List (Nat × Nat) :=
  ranges.mergeSort (fun a b => a.1 ≤ b.1)

/-- Loop body of `mergeRanges`: coalesce a span that starts at or before
the running end of the current group, otherwise emit the group. -/
def mergeRangesAux : Nat × Nat → List (Nat × Nat) → List (Nat × Nat)
  | cur, [] => [cur]
  | cur, (s, e) :: rest =>
    if s ≤ cur.2 then mergeRangesAux (cur.1, max cur.2 e) rest
    else cur :: mergeRangesAux (s, e) rest

/-- `mergeRanges(ranges)` of the sibling variant: sort by start offset and
coalesce overlapping or touching spans. -/
def mergeRanges (ranges : List (Nat × Nat)) : List (Nat × Nat) :=
  match sortRanges ranges with
  | [] => []
  | r :: rest => mergeRangesAux r rest

/-- Sum of bracket-depth contributions over a list of characters. -/
def braceSum : Str → Int
  | [] => 0
  | c :: rest => braceDelta c + braceSum rest

/-- Running depth of `findMatchingBrace` after it has processed offsets
`start .. j` of `code` (starting from the implicit depth 1). -/
def depthFrom (code : Str) (start j : Nat) : Int :=
  1 + braceSum (sliceJS code start (j + 1))

/-- Modelled from the spec: "sort by start offset and coalesce any span
whose start is ≤ the running end of the current group into that group
(extending the end to the max)", written as a fold carrying the finished
groups and the current group. -/
def coalesceStep : List (Nat × Nat) × Option (Nat × Nat) → Nat × Nat →
    List (Nat × Nat) × Option (Nat × Nat)
  | (done, none), r => (done, some r)
  | (done, some cur), (s, e) =>
    if s ≤ cur.2 then (done, some (cur.1, max cur.2 e))
    else (done ++ [cur], some (s, e))

def coalesceSpec (ranges : List (Nat × Nat)) : List (Nat × Nat) :=
  match (sortRanges ranges).foldl coalesceStep ([], none) with
  | (done, none) => done
  | (done, some cur) => done ++ [cur]

/-- Spans listed left to right, each starting no earlier than the cursor
and no earlier than the end of its predecessor. -/
inductive ChainSpans : Nat → List (Nat × Nat) → Prop
  | nil (c : Nat) : ChainSpans c []
  | cons {c s e : Nat} {rest : List (Nat × Nat)} :
      c ≤ s → s ≤ e → ChainSpans e rest → ChainSpans c ((s, e) :: rest)

/-- Segment-wise description of span blanking: copy the text between the
cursor and the span, blank the span, continue after it. -/
def stripSpec (code : Str) : Nat → List (Nat × Nat) → Str
  | cursor, [] => code.drop cursor
  | cursor, (s, e) :: rest =>
    sliceJS code cursor s ++ blankNonNewlines (sliceJS code s e) ++ stripSpec code e rest

/-! Concrete fixtures used by the claim theorems. -/

/-- Registry holding the two function definitions of claim C1. -/
def c1Reg : FunctionRegistry :=
  [(toStr "--a", ⟨toStr "--a", [⟨toStr "--x", some (toStr "1")⟩], toStr "result: var(--x);"⟩),
   (toStr "--b", ⟨toStr "--b", [⟨toStr "--y", some (toStr "2")⟩], toStr "result: --a(var(--y));"⟩)]

/-- Mixin registry produced by extracting `@mixin --wrap(@contents) { ... }`. -/
def c2Reg : MixinRegistry :=
  [(toStr "--wrap",
    ⟨toStr "--wrap", [], toStr " @media (min-width: 1px) \x7b @contents; \x7d ", true⟩)]

/-- Mixin registry produced by extracting `@mixin --box(--c: red) { ... }`. -/
def c3Reg : MixinRegistry :=
  [(toStr "--box",
    ⟨toStr "--box", [⟨toStr "--c", some (toStr "red")⟩], toStr " color: env(--c); ", false⟩)]

/-- Function registry produced by extracting a function with no `result:`. -/
def c4Reg : FunctionRegistry :=
  [(toStr "--f", ⟨toStr "--f", [⟨toStr "--x", none⟩], toStr " color: red; "⟩)]

/-- Registry holding only `--f` for claim C10. -/
def c10Reg : FunctionRegistry :=
  [(toStr "--f", ⟨toStr "--f", [⟨toStr "--x", some (toStr "1")⟩], toStr "result: var(--x);"⟩)]

/-- Registry holding only `--g` for the claim C6 counterexample. -/
def c6Reg : FunctionRegistry :=
  [(toStr "--g", ⟨toStr "--g", [⟨toStr "--y", some (toStr "2")⟩], toStr "result: var(--y);"⟩)]

/-- C1: with a registry containing `--a(--x:1){result: var(--x);}` and
`--b(--y:2){result: --a(var(--y));}`, `resolveFunctionCalls` on `--b()`
produces `2`, which is exactly the result of substituting `2` for `--x`
in the result expression of `--a`; the nested call resolves fully within
the 10-iteration ceiling. -/
theorem c1_nested_call_resolution :
    resolveFunctionCalls (toStr "--b()") c1Reg = .ok (toStr "2") ∧
    extractResult (toStr "result: var(--x);") = .ok (toStr "var(--x)") ∧
    substituteVars (toStr "var(--x)") [⟨toStr "--x", some (toStr "1")⟩] [toStr "2"] = toStr "2" ∧
    resolveFunctionCalls (toStr "--b()") c1Reg =
      .ok (substituteVars (toStr "var(--x)") [⟨toStr "--x", some (toStr "1")⟩] [toStr "2"]) := by
  refine ⟨by decide, by decide, by decide, by decide⟩

/-- C2 counterexample: a mixin declared without a parameter list, as the
claim writes it, is not even registered by `extractMixins` (the regex
demands parentheses), so the application is replaced by the unknown-mixin
comment and the block content is never spliced. -/
theorem c2_counterexample :
    extractMixins (toStr "@mixin --wrap \x7b @media (min-width: 1px) \x7b @contents; \x7d \x7d") [] =
      .ok ([], []) ∧
    resolveMixinApplications (toStr "@apply --wrap \x7b .a \x7b color: red; \x7d \x7d") [] =
      toStr "/* Unknown mixin: --wrap */\x7d" ∧
    ¬ (toStr ".a \x7b color: red; \x7d" <:+:
        resolveMixinApplications (toStr "@apply --wrap \x7b .a \x7b color: red; \x7d \x7d") []) := by
  refine ⟨by decide, by decide, by decide⟩

/-- C2 amended: the mixin must declare `@contents` in a parenthesized
parameter list to be registered with `hasContents`; then applying
`@apply --wrap { .a { color: red; } }` splices the captured block content —
which the regex truncates at the first closing brace — in place of the
placeholder, the apply site keeping its final brace, so the net output is
` @media (min-width: 1px) { .a { color: red; } }`. -/
theorem c2_contents_splice :
    extractMixins (toStr "@mixin --wrap(@contents) \x7b @media (min-width: 1px) \x7b @contents; \x7d \x7d") [] =
      .ok (c2Reg, [(0, 67)]) ∧
    lookupLast c2Reg (toStr "--wrap") =
      some ⟨toStr "--wrap", [], toStr " @media (min-width: 1px) \x7b @contents; \x7d ", true⟩ ∧
    resolveMixinApplications (toStr "@apply --wrap \x7b .a \x7b color: red; \x7d \x7d") c2Reg =
      toStr " @media (min-width: 1px) \x7b .a \x7b color: red; \x7d \x7d" := by
  refine ⟨by decide, by decide, by decide⟩

/-- C3: with the registry extracted from `@mixin --box(--c: red) { color: env(--c); }`,
the application `@apply --box(blue);` resolves to `color: blue;` (supplied
argument substituted into the `env()` reference) and `@apply --box;`
resolves to `color: red;` (declared default applied). -/
theorem c3_mixin_argument_and_default :
    extractMixins (toStr "@mixin --box(--c: red) \x7b color: env(--c); \x7d") [] =
      .ok (c3Reg, [(0, 43)]) ∧
    resolveMixinApplications (toStr "@apply --box(blue);") c3Reg = toStr " color: blue; " ∧
    trimStr (resolveMixinApplications (toStr "@apply --box(blue);") c3Reg) =
      toStr "color: blue;" ∧
    resolveMixinApplications (toStr "@apply --box;") c3Reg = toStr " color: red; " ∧
    trimStr (resolveMixinApplications (toStr "@apply --box;") c3Reg) =
      toStr "color: red;" := by
  refine ⟨by decide, by decide, by decide, by decide, by decide⟩

/-- C4: extracting a function whose body lacks a `result:` clause succeeds
(the definition is registered and its span returned), while resolving a
call to that function raises the missing-result error, aborting the pass. -/
theorem c4_missing_result_at_resolution :
    extractFunctions (toStr "@function --f(--x) \x7b color: red; \x7d") [] =
      .ok (c4Reg, [(0, 34)]) ∧
    lookupLast c4Reg (toStr "--f") =
      some ⟨toStr "--f", [⟨toStr "--x", none⟩], toStr " color: red; "⟩ ∧
    extractResult (toStr " color: red; ") = .error .missingResult ∧
    resolveOnce (toStr "--f()") c4Reg = .error .missingResult ∧
    resolveFunctionCalls (toStr "--f()") c4Reg = .error .missingResult := by
  refine ⟨by decide, by decide, by decide, by decide, by decide⟩

/-- C10: on `--u(--f())` with `--u` unregistered and `--f` registered,
`resolveOnce` emits `--u(` and resumes scanning right after the opening
parenthesis, so the inner registered call is resolved in the same pass. -/
theorem c10_scan_resumes_inside_unknown_call :
    lookupLast c10Reg (toStr "--u") = none ∧
    lookupLast c10Reg (toStr "--f") =
      some ⟨toStr "--f", [⟨toStr "--x", some (toStr "1")⟩], toStr "result: var(--x);"⟩ ∧
    resolveOnce (toStr "--u(--f())") c10Reg = .ok (toStr "--u(1)") := by
  refine ⟨by decide, by decide, by decide⟩

/-- C6 counterexample: the call `--z(--g(5))` has an unregistered
identifier, yet its text does not appear verbatim in the output of
`resolveOnce` because the registered call inside its argument list is
rewritten in the same pass. -/
theorem c6_counterexample :
    lookupLast c6Reg (toStr "--z") = none ∧
    resolveOnce (toStr "--z(--g(5))") c6Reg = .ok (toStr "--z(5)") ∧
    ¬ (toStr "--z(--g(5))" <:+: toStr "--z(5)") := by
  refine ⟨by decide, by decide, by decide⟩

/-- C9 counterexample: on a disjoint but unsorted span list the reversed
processing order of `stripDefinitions` misaligns offsets: character `h`
at offset 7 lies outside both spans yet is missing from the output. -/
theorem c9_counterexample :
    stripDefinitions (toStr "abcdefgh") [(5, 7), (0, 2)] = toStr "cdefg" ∧
    ¬ ('h' ∈ stripDefinitions (toStr "abcdefgh") [(5, 7), (0, 2)]) := by
  refine ⟨by decide, by decide⟩

lemma braceSum_take_succ_cons (c : Char) (cs : Str) (n : Nat) :
    braceSum ((c :: cs).take (n + 1)) = braceDelta c + braceSum (cs.take n) := rfl

lemma findMatchingBraceAux_some_iff (rest : Str) :
    ∀ (i0 : Nat) (d : Int) (i : Nat),
      findMatchingBraceAux rest i0 d = some i ↔
        ∃ t, i = i0 + t ∧ t < rest.length ∧ d + braceSum (rest.take (t + 1)) = 0 ∧
          ∀ u, u < t → d + braceSum (rest.take (u + 1)) ≠ 0 := by
  induction rest with
  | nil =>
    intro i0 d i
    simp [findMatchingBraceAux]
  | cons c cs ih =>
    intro i0 d i
    simp only [findMatchingBraceAux]
    by_cases h : d + braceDelta c = 0
    · simp only [h, if_pos rfl]
      constructor
      · intro hi
        injection hi with hi
        exact ⟨0, by omega, by simp, by simpa [braceSum_take_succ_cons, braceSum] using h,
          by omega⟩
      · rintro ⟨t, hit, _, _, hall⟩
        rcases Nat.eq_zero_or_pos t with ht0 | htp
        · subst ht0; simp [hit]
        · exact absurd (by simpa [braceSum_take_succ_cons, braceSum] using h) (hall 0 htp)
    · rw [if_neg h, ih (i0 + 1) (d + braceDelta c) i]
      constructor
      · rintro ⟨t', hit, hlen, hz, hall⟩
        refine ⟨t' + 1, by omega, by simpa using Nat.succ_lt_succ hlen, ?_, ?_⟩
        · rw [braceSum_take_succ_cons]; omega
        · intro u hu
          rcases Nat.eq_zero_or_pos u with hu0 | hup
          · subst hu0
            simpa [braceSum_take_succ_cons, braceSum] using h
          · obtain ⟨u', rfl⟩ : ∃ u', u = u' + 1 := ⟨u - 1, by omega⟩
            rw [braceSum_take_succ_cons]
            have := hall u' (by omega)
            omega
      · rintro ⟨t, hit, hlen, hz, hall⟩
        rcases Nat.eq_zero_or_pos t with ht0 | htp
        · subst ht0
          exact absurd (by simpa [braceSum_take_succ_cons, braceSum] using hz) h
        · obtain ⟨t', rfl⟩ : ∃ t', t = t' + 1 := ⟨t - 1, by omega⟩
          refine ⟨t', by omega, by simpa using Nat.lt_of_succ_lt_succ hlen, ?_, ?_⟩
          · rw [braceSum_take_succ_cons] at hz; omega
          · intro u hu
            have := hall (u + 1) (by omega)
            rw [braceSum_take_succ_cons] at this
            omega

lemma findMatchingBraceAux_none_iff (rest : Str) :
    ∀ (i0 : Nat) (d : Int),
      findMatchingBraceAux rest i0 d = none ↔
        ∀ t, t < rest.length → d + braceSum (rest.take (t + 1)) ≠ 0 := by
  induction rest with
  | nil =>
    intro i0 d
    simp [findMatchingBraceAux]
  | cons c cs ih =>
    intro i0 d
    simp only [findMatchingBraceAux]
    by_cases h : d + braceDelta c = 0
    · simp only [h, if_pos rfl]
      constructor
      · intro hi; exact absurd hi (by simp)
      · intro hall
        exact absurd (by simpa [braceSum_take_succ_cons, braceSum] using h)
          (hall 0 (by simp))
    · rw [if_neg h, ih (i0 + 1) (d + braceDelta c)]
      constructor
      · intro hall t ht
        rcases Nat.eq_zero_or_pos t with ht0 | htp
        · subst ht0
          simpa [braceSum_take_succ_cons, braceSum] using h
        · obtain ⟨t', rfl⟩ : ∃ t', t = t' + 1 := ⟨t - 1, by omega⟩
          rw [braceSum_take_succ_cons]
          have := hall t' (by simpa using Nat.lt_of_succ_lt_succ ht)
          omega
      · intro hall t ht
        have := hall (t + 1) (by simpa using Nat.succ_lt_succ ht)
        rw [braceSum_take_succ_cons] at this
        omega

lemma sliceJS_eq_take_drop (code : Str) (a b : Nat) :
    sliceJS code a b = (code.drop a).take (b - a) := by
  simp [sliceJS, List.drop_take]

/-- C7: `findMatchingBrace(code, start)` returns the first offset at which
the running depth (starting at 1 and updated uniformly over the three
bracket families, any closing bracket decrementing) reaches zero, and
throws the unmatched-brace error exactly when no offset before the end of
the text brings the depth to zero. -/
theorem c7_find_matching_brace_contract :
    (∀ (code : Str) (start i : Nat),
      findMatchingBrace code start = .ok i ↔
        start ≤ i ∧ i < code.length ∧ depthFrom code start i = 0 ∧
          ∀ j, start ≤ j → j < i → depthFrom code start j ≠ 0) ∧
    (∀ (code : Str) (start : Nat),
      findMatchingBrace code start = .error (.unmatchedBrace start) ↔
        ∀ j, start ≤ j → j < code.length → depthFrom code start j ≠ 0) ∧
    braceDelta '(' = 1 ∧ braceDelta '{' = 1 ∧ braceDelta '[' = 1 ∧
    braceDelta ')' = -1 ∧ braceDelta '}' = -1 ∧ braceDelta ']' = -1 := by
  have hdepth : ∀ (code : Str) (start t : Nat),
      depthFrom code start (start + t) = 1 + braceSum ((code.drop start).take (t + 1)) := by
    intro code start t
    rw [depthFrom, sliceJS_eq_take_drop]
    have h1 : start + t + 1 - start = t + 1 := by omega
    rw [h1]
  refine ⟨?_, ?_, by decide, by decide, by decide, by decide, by decide, by decide⟩
  · intro code start i
    have hok : findMatchingBrace code start = .ok i ↔
        findMatchingBraceAux (code.drop start) start 1 = some i := by
      unfold findMatchingBrace
      cases h : findMatchingBraceAux (code.drop start) start 1 <;> simp [h]
    rw [hok, findMatchingBraceAux_some_iff]
    constructor
    · rintro ⟨t, rfl, hlen, hz, hall⟩
      have hlen' : start + t < code.length := by
        have := code.length_drop start
        omega
      refine ⟨by omega, hlen', ?_, ?_⟩
      · rw [hdepth]; omega
      · intro j hj1 hj2
        obtain ⟨u, rfl⟩ : ∃ u, j = start + u := ⟨j - start, by omega⟩
        rw [hdepth]
        have := hall u (by omega)
        omega
    · rintro ⟨hsi, hlen, hz, hall⟩
      obtain ⟨t, rfl⟩ : ∃ t, i = start + t := ⟨i - start, by omega⟩
      refine ⟨t, rfl, ?_, ?_, ?_⟩
      · have := code.length_drop start
        omega
      · rw [hdepth] at hz; omega
      · intro u hu
        have := hall (start + u) (by omega) (by omega)
        rw [hdepth] at this
        omega
  · intro code start
    have herr : findMatchingBrace code start = .error (.unmatchedBrace start) ↔
        findMatchingBraceAux (code.drop start) start 1 = none := by
      unfold findMatchingBrace
      cases h : findMatchingBraceAux (code.drop start) start 1 <;> simp [h]
    rw [herr, findMatchingBraceAux_none_iff]
    constructor
    · intro hall j hj1 hj2
      obtain ⟨u, rfl⟩ : ∃ u, j = start + u := ⟨j - start, by omega⟩
      rw [hdepth]
      have := hall u (by have := code.length_drop start; omega)
      omega
    · intro hall t ht
      have := hall (start + t) (by omega) (by have := code.length_drop start; omega)
      rw [hdepth] at this
      omega

/-- Output spans of the merge are ordered and separated: each one starts
after the previous one ends. -/
def SpanSeparated (a b : Nat × Nat) : Prop := a.1 ≤ b.1 ∧ a.2 < b.1

lemma mergeRangesAux_pairwise :
    ∀ (rest : List (Nat × Nat)) (cur : Nat × Nat),
      rest.Pairwise (fun a b => a.1 ≤ b.1) → (∀ x ∈ rest, cur.1 ≤ x.1) →
      (mergeRangesAux cur rest).Pairwise SpanSeparated ∧
        ∀ y ∈ mergeRangesAux cur rest, cur.1 ≤ y.1 := by
  intro rest
  induction rest with
  | nil =>
    intro cur _ _
    simp [mergeRangesAux]
  | cons hd tl ih =>
    intro cur hsorted hmin
    obtain ⟨s, e⟩ := hd
    rw [List.pairwise_cons] at hsorted
    by_cases hse : s ≤ cur.2
    · simp only [mergeRangesAux, if_pos hse]
      have hmin' : ∀ x ∈ tl, (cur.1, max cur.2 e).1 ≤ x.1 := by
        intro x hx
        exact le_trans (hmin (s, e) (by simp)) (hsorted.1 x hx)
      exact ih (cur.1, max cur.2 e) hsorted.2 hmin'
    · simp only [mergeRangesAux, if_neg hse]
      have hmin' : ∀ x ∈ tl, s ≤ x.1 := fun x hx => hsorted.1 x hx
      obtain ⟨hpw, hge⟩ := ih (s, e) hsorted.2 hmin'
      refine ⟨List.pairwise_cons.mpr ⟨?_, hpw⟩, ?_⟩
      · intro y hy
        have h1 : s ≤ y.1 := hge y hy
        have h2 : cur.1 ≤ s := hmin (s, e) (by simp)
        exact ⟨by omega, by omega⟩
      · intro y hy
        rcases List.mem_cons.mp hy with rfl | hy'
        · exact le_refl _
        · exact le_trans (hmin (s, e) (by simp)) (hge y hy')

lemma sortRanges_sorted (l : List (Nat × Nat)) :
    (sortRanges l).Pairwise (fun a b => a.1 ≤ b.1) := by
  have h := @List.sorted_mergeSort (Nat × Nat) (fun a b => decide (a.1 ≤ b.1))
    (by intro a b c hab hbc
        simp only [decide_eq_true_eq] at hab hbc ⊢
        omega)
    (by intro a b
        simp only [Bool.or_eq_true, decide_eq_true_eq]
        omega)
    l
  exact h.imp (by intro a b hab; simpa using hab)

lemma mergeRanges_pairwise (l : List (Nat × Nat)) :
    (mergeRanges l).Pairwise SpanSeparated := by
  unfold mergeRanges
  cases hs : sortRanges l with
  | nil => simp
  | cons r rest =>
    have := sortRanges_sorted l
    rw [hs, List.pairwise_cons] at this
    exact (mergeRangesAux_pairwise rest r this.2 this.1).1

lemma mergeRangesAux_of_separated :
    ∀ (rest : List (Nat × Nat)) (cur : Nat × Nat),
      ((cur :: rest).Pairwise SpanSeparated) → mergeRangesAux cur rest = cur :: rest := by
  intro rest
  induction rest with
  | nil => intro cur _; rfl
  | cons hd tl ih =>
    intro cur hpw
    obtain ⟨s, e⟩ := hd
    rw [List.pairwise_cons] at hpw
    have hsep : SpanSeparated cur (s, e) := hpw.1 (s, e) (by simp)
    have hns : ¬ s ≤ cur.2 := by
      have := hsep.2
      omega
    simp only [mergeRangesAux, if_neg hns]
    rw [ih (s, e) hpw.2]

lemma mergeRanges_of_separated (l : List (Nat × Nat)) :
    l.Pairwise SpanSeparated → mergeRanges l = l := by
  intro hpw
  have hsorted : sortRanges l = l := by
    apply List.mergeSort_of_sorted
    exact hpw.imp (by intro a b hab; simpa using hab.1)
  unfold mergeRanges
  rw [hsorted]
  cases l with
  | nil => rfl
  | cons r rest => exact mergeRangesAux_of_separated rest r hpw

lemma coalesce_foldl_eq_aux :
    ∀ (rest : List (Nat × Nat)) (done : List (Nat × Nat)) (cur : Nat × Nat),
      (match rest.foldl coalesceStep (done, some cur) with
        | (d, none) => d
        | (d, some c) => d ++ [c]) = done ++ mergeRangesAux cur rest := by
  intro rest
  induction rest with
  | nil => intro done cur; simp [mergeRangesAux]
  | cons hd tl ih =>
    intro done cur
    obtain ⟨s, e⟩ := hd
    by_cases hse : s ≤ cur.2
    · simp only [List.foldl_cons, coalesceStep, if_pos hse, mergeRangesAux]
      exact ih done (cur.1, max cur.2 e)
    · simp only [List.foldl_cons, coalesceStep, if_neg hse, mergeRangesAux]
      rw [ih (done ++ [cur]) (s, e)]
      simp

lemma mergeRanges_eq_coalesceSpec (l : List (Nat × Nat)) :
    mergeRanges l = coalesceSpec l := by
  unfold mergeRanges coalesceSpec
  cases hs : sortRanges l with
  | nil => simp
  | cons r rest =>
    have h := coalesce_foldl_eq_aux rest [] r
    simp only [List.nil_append] at h
    rw [List.foldl_cons]
    simp only [coalesceStep]
    rw [← h]

/-- C8: `mergeRanges` is idempotent, its output is sorted by start offset
and pairwise disjoint (each span ends strictly before the next begins),
and it coincides with the spec-side fold that coalesces exactly the spans
whose start is at most the running end of the current group. -/
theorem c8_merge_ranges_contract :
    ∀ ranges : List (Nat × Nat),
      mergeRanges (mergeRanges ranges) = mergeRanges ranges ∧
      (mergeRanges ranges).Pairwise (fun a b => a.1 ≤ b.1) ∧
      (mergeRanges ranges).Pairwise (fun a b => a.2 < b.1) ∧
      mergeRanges ranges = coalesceSpec ranges := by
  intro ranges
  refine ⟨mergeRanges_of_separated _ (mergeRanges_pairwise ranges), ?_, ?_,
    mergeRanges_eq_coalesceSpec ranges⟩
  · exact (mergeRanges_pairwise ranges).imp (fun h => h.1)
  · exact (mergeRanges_pairwise ranges).imp (fun h => h.2)

/-- One reversed-order step of `stripDefinitions`. -/
def stripStep (r : Nat × Nat) (acc : Str) : Str :=
  acc.take r.1 ++ blankNonNewlines (sliceJS acc r.1 r.2) ++ acc.drop r.2

lemma stripDefinitions_eq_foldr (code : Str) (removals : List (Nat × Nat)) :
    stripDefinitions code removals = removals.foldr stripStep code := by
  unfold stripDefinitions
  rw [List.foldl_reverse]
  rfl

lemma countNewlines_blankNonNewlines (l : Str) :
    countNewlines (blankNonNewlines l) = countNewlines l := by
  induction l with
  | nil => rfl
  | cons c rest ih =>
    by_cases h : c = '\n'
    · simp [blankNonNewlines, countNewlines, List.filter_cons, List.countP_cons, h] at ih ⊢
      omega
    · have hb : (c == '\n') = false := by simpa using h
      simp [blankNonNewlines, countNewlines, List.filter_cons, List.countP_cons, hb] at ih ⊢
      exact ih

lemma sliceJS_decomp (l : Str) (s e : Nat) (h : s ≤ e) :
    l = l.take s ++ sliceJS l s e ++ l.drop e := by
  have h1 : l.take e = l.take s ++ sliceJS l s e := by
    unfold sliceJS
    conv_lhs => rw [← List.take_append_drop s (l.take e)]
    rw [List.take_take]
    have hmin : s ⊓ e = s := by omega
    rw [hmin]
  conv_lhs => rw [← List.take_append_drop e l]
  rw [h1, List.append_assoc]

lemma countNewlines_stripStep (r : Nat × Nat) (acc : Str) (h : r.1 ≤ r.2) :
    countNewlines (stripStep r acc) = countNewlines acc := by
  unfold stripStep countNewlines
  rw [List.countP_append, List.countP_append]
  have := countNewlines_blankNonNewlines (sliceJS acc r.1 r.2)
  unfold countNewlines at this
  rw [this]
  conv_rhs => rw [sliceJS_decomp acc r.1 r.2 h]
  rw [List.countP_append, List.countP_append]

lemma chainSpans_weaken {c c' : Nat} {spans : List (Nat × Nat)} :
    ChainSpans c spans → c' ≤ c → ChainSpans c' spans := by
  intro h hle
  cases h with
  | nil => exact ChainSpans.nil c'
  | cons h1 h2 h3 => exact ChainSpans.cons (le_trans hle h1) h2 h3

lemma drop_eq_sliceJS_append (l : Str) (a b : Nat) (h : a ≤ b) :
    l.drop a = sliceJS l a b ++ l.drop b := by
  unfold sliceJS
  conv_lhs => rw [← List.take_append_drop b l]
  rw [List.drop_append_eq_append_drop]
  congr 1
  by_cases hlen : a ≤ (l.take b).length
  · have h0 : a - (l.take b).length = 0 := by omega
    rw [h0, List.drop_zero]
  · have hblen : l.length ≤ b := by
      rw [List.length_take] at hlen
      omega
    rw [List.drop_eq_nil_of_le hblen, List.drop_nil]

lemma sliceJS_split (l : Str) (a b b' : Nat) (h1 : a ≤ b) (h2 : b ≤ b') :
    sliceJS l a b' = sliceJS l a b ++ sliceJS l b b' := by
  have h := drop_eq_sliceJS_append (l.take b') a b h1
  unfold sliceJS at h ⊢
  rw [h, List.take_take]
  have hmin : b ⊓ b' = b := by omega
  rw [hmin]

lemma stripSpec_split (spans : List (Nat × Nat)) :
    ∀ (code : Str) (c c' : Nat), ChainSpans c' spans → c ≤ c' →
      stripSpec code c spans = sliceJS code c c' ++ stripSpec code c' spans := by
  induction spans with
  | nil =>
    intro code c c' _ hle
    exact drop_eq_sliceJS_append code c c' hle
  | cons hd tl _ =>
    intro code c c' hchain hle
    obtain ⟨s, e⟩ := hd
    cases hchain with
    | cons h1 h2 h3 =>
      simp only [stripSpec]
      rw [sliceJS_split code c c' s hle h1]
      simp [List.append_assoc]

lemma take_of_chain_head (code : Str) (e : Nat) (T : Str) (he : e ≤ code.length) (s : Nat)
    (hs : s ≤ e) : (code.take e ++ T).take s = code.take s := by
  rw [List.take_append_eq_append_take]
  have hlen : (code.take e).length = e := by
    rw [List.length_take]
    omega
  rw [hlen]
  have : s - e = 0 := by omega
  rw [this, List.take_take, List.take_zero, List.append_nil]
  congr 1
  omega

lemma strip_foldr_eq_spec (spans : List (Nat × Nat)) :
    ∀ code : Str, ChainSpans 0 spans → (∀ p ∈ spans, p.2 ≤ code.length) →
      spans.foldr stripStep code = stripSpec code 0 spans := by
  induction spans with
  | nil => intro code _ _; simp [stripSpec]
  | cons hd tl ih =>
    intro code hchain hbound
    obtain ⟨s, e⟩ := hd
    cases hchain with
    | cons h1 h2 h3 =>
      have he : e ≤ code.length := hbound (s, e) (by simp)
      have htl : tl.foldr stripStep code = stripSpec code 0 tl :=
        ih code (chainSpans_weaken h3 (Nat.zero_le e)) (fun p hp => hbound p (by simp [hp]))
      have hsplit : stripSpec code 0 tl = code.take e ++ stripSpec code e tl := by
        rw [stripSpec_split tl code 0 e h3 (Nat.zero_le e)]
        simp [sliceJS]
      rw [List.foldr_cons, htl, hsplit]
      have hlen : (code.take e).length = e := by
        rw [List.length_take]; omega
      show stripStep (s, e) (code.take e ++ stripSpec code e tl) = _
      unfold stripStep
      have hT1 : (code.take e ++ stripSpec code e tl).take s = code.take s :=
        take_of_chain_head code e _ he s h2
      have hTe : (code.take e ++ stripSpec code e tl).take e = code.take e := by
        rw [List.take_append_eq_append_take, hlen]
        simp [List.take_take]
      have hslice : sliceJS (code.take e ++ stripSpec code e tl) s e = sliceJS code s e := by
        unfold sliceJS
        rw [hTe]
      have hdrop : (code.take e ++ stripSpec code e tl).drop e = stripSpec code e tl := by
        rw [List.drop_append_eq_append_drop]
        rw [List.drop_eq_nil_of_le (le_of_eq hlen), hlen]
        simp
      rw [hT1, hslice, hdrop]
      show _ = sliceJS code 0 s ++ blankNonNewlines (sliceJS code s e) ++ stripSpec code e tl
      have h0s : sliceJS code 0 s = code.take s := by simp [sliceJS]
      rw [h0s, List.append_assoc]

/-- C9 amended: blanking preserves the newline count for every list of
spans with `start ≤ end`, and for a sorted disjoint in-bounds span list
the output is exactly the segment decomposition that copies every
character outside the spans unchanged. -/
theorem c9_strip_definitions_contract :
    (∀ (code : Str) (removals : List (Nat × Nat)),
      (∀ p ∈ removals, p.1 ≤ p.2) →
      countNewlines (stripDefinitions code removals) = countNewlines code) ∧
    (∀ (code : Str) (removals : List (Nat × Nat)),
      ChainSpans 0 removals → (∀ p ∈ removals, p.2 ≤ code.length) →
      stripDefinitions code removals = stripSpec code 0 removals) := by
  constructor
  · intro code removals hwf
    rw [stripDefinitions_eq_foldr]
    induction removals with
    | nil => rfl
    | cons hd tl ih =>
      rw [List.foldr_cons, countNewlines_stripStep hd _ (hwf hd (by simp))]
      exact ih (fun p hp => hwf p (by simp [hp]))
  · intro code removals hchain hbound
    rw [stripDefinitions_eq_foldr]
    exact strip_foldr_eq_spec removals code hchain hbound

/-- Closed instance of the C9 contract: both parts applied to the text
`a@b(newline)cd@e` with the sorted disjoint spans `(1,3)` and `(6,8)`. -/
theorem c9_strip_definitions_contract_witness :
    ((∀ p ∈ [(1, 3), (6, 8)], (p : Nat × Nat).1 ≤ p.2) ∧
      ChainSpans 0 [(1, 3), (6, 8)] ∧
      (∀ p ∈ [(1, 3), (6, 8)], (p : Nat × Nat).2 ≤ (toStr "a@b\ncd@e").length)) ∧
    countNewlines (stripDefinitions (toStr "a@b\ncd@e") [(1, 3), (6, 8)]) =
      countNewlines (toStr "a@b\ncd@e") ∧
    stripDefinitions (toStr "a@b\ncd@e") [(1, 3), (6, 8)] =
      stripSpec (toStr "a@b\ncd@e") 0 [(1, 3), (6, 8)] := by
  have hchain : ChainSpans 0 [(1, 3), (6, 8)] :=
    ChainSpans.cons (by omega) (by omega)
      (ChainSpans.cons (by omega) (by omega) (ChainSpans.nil 8))
  refine ⟨⟨by decide, hchain, by decide⟩, ?_, ?_⟩
  · exact c9_strip_definitions_contract.1 (toStr "a@b\ncd@e") [(1, 3), (6, 8)] (by decide)
  · exact c9_strip_definitions_contract.2 (toStr "a@b\ncd@e") [(1, 3), (6, 8)] hchain (by decide)

lemma expectLit_append (lit : Str) : ∀ l r, expectLit lit l = some r → l = lit ++ r := by
  induction lit with
  | nil =>
    intro l r h
    simp [expectLit] at h
    simp [h]
  | cons c cs ih =>
    intro l r h
    cases l with
    | nil => simp [expectLit] at h
    | cons x xs =>
      unfold expectLit at h
      by_cases hx : x = c
      · rw [if_pos hx] at h
        rw [hx, List.cons_append]
        rw [ih xs r h]
      · rw [if_neg hx] at h
        exact absurd h (by simp)

lemma takeWhile_append_stop {p : Char → Bool} (xs : Str) (y : Char) (ys : Str)
    (hall : ∀ c ∈ xs, p c = true) (hy : p y = false) :
    (xs ++ y :: ys).takeWhile p = xs ∧ (xs ++ y :: ys).dropWhile p = y :: ys := by
  induction xs with
  | nil => simp [List.takeWhile, List.dropWhile, hy]
  | cons x xt ih =>
    have hx : p x = true := hall x (by simp)
    obtain ⟨h1, h2⟩ := ih (fun c hc => hall c (by simp [hc]))
    constructor
    · simp [List.takeWhile, hx, h1]
    · simp [List.dropWhile, hx, h2]

lemma callMatchAt_text {l nm rem : Str} (h : callMatchAt l = some (nm, rem)) :
    l = nm ++ '(' :: rem ∧ 3 ≤ nm.length := by
  unfold callMatchAt at h
  cases he : expectLit (toStr "--") l with
  | none => rw [he] at h; exact absurd h (by simp)
  | some rest =>
    rw [he] at h
    simp only at h
    by_cases hrun : (rest.takeWhile isWordDash).isEmpty
    · rw [if_pos hrun] at h
      exact absurd h (by simp)
    · rw [if_neg hrun] at h
      cases hd : rest.dropWhile isWordDash with
      | nil => rw [hd] at h; exact absurd h (by simp)
      | cons d dt =>
        rw [hd] at h
        have h' : (if d = '(' then
            some ('-' :: '-' :: rest.takeWhile isWordDash, dt) else none) = some (nm, rem) := h
        clear h
        rename' h' => h
        by_cases hdp : d = '('
        · rw [if_pos hdp] at h
          subst hdp
          simp only [Option.some.injEq, Prod.mk.injEq] at h
          obtain ⟨hnm, hrem⟩ := h
          have hl : l = toStr "--" ++ rest := expectLit_append _ _ _ he
          have hsplit : rest = rest.takeWhile isWordDash ++ ('(' :: dt) := by
            conv_lhs => rw [← List.takeWhile_append_dropWhile isWordDash rest]
            rw [hd]
          constructor
          · rw [hl, hsplit, ← hnm, ← hrem]
            rfl
          · rw [← hnm]
            cases hx : rest.takeWhile isWordDash with
            | nil => rw [hx] at hrun; simp at hrun
            | cons a b => simp [hx]
        · rw [if_neg hdp] at h
          exact absurd h (by simp)

lemma nextMatchFromAux_sound {μ : Type} (matchAt : Str → Option μ) (code : Str) :
    ∀ (fuel i s : Nat) (m : μ), nextMatchFromAux matchAt code fuel i = some (s, m) →
      i ≤ s ∧ s < i + fuel ∧ matchAt (code.drop s) = some m := by
  intro fuel
  induction fuel with
  | zero => intro i s m h; exact absurd h (by simp [nextMatchFromAux])
  | succ f ih =>
    intro i s m h
    unfold nextMatchFromAux at h
    cases hm : matchAt (code.drop i) with
    | some m' =>
      rw [hm] at h
      simp only [Option.some.injEq, Prod.mk.injEq] at h
      obtain ⟨rfl, rfl⟩ := h
      exact ⟨le_refl _, by omega, hm⟩
    | none =>
      rw [hm] at h
      obtain ⟨h1, h2, h3⟩ := ih (i + 1) s m h
      exact ⟨by omega, by omega, h3⟩

lemma nextMatchFrom_sound {μ : Type} (matchAt : Str → Option μ) (code : Str)
    (i s : Nat) (m : μ) (h : nextMatchFrom matchAt code i = some (s, m)) :
    i ≤ s ∧ s < code.length ∧ matchAt (code.drop s) = some m := by
  unfold nextMatchFrom at h
  obtain ⟨h1, h2, h3⟩ := nextMatchFromAux_sound matchAt code (code.length - i) i s m h
  exact ⟨h1, by omega, h3⟩

lemma nextMatchFrom_none_of_ge {μ : Type} (matchAt : Str → Option μ) (code : Str)
    (i : Nat) (h : code.length ≤ i) : nextMatchFrom matchAt code i = none := by
  unfold nextMatchFrom
  have h0 : code.length - i = 0 := by omega
  rw [h0]
  rfl

lemma drop_lengthSub_of_callMatch {code nm rem : Str} {s : Nat}
    (hm : callMatchAt (code.drop s) = some (nm, rem)) (hs : s < code.length) :
    code.drop (code.length - rem.length) = rem ∧
      code.length - rem.length = s + nm.length + 1 := by
  have htext := (callMatchAt_text hm).1
  have hlen : code.length - s = nm.length + 1 + rem.length := by
    have hld : (code.drop s).length = code.length - s := code.length_drop s
    rw [htext] at hld
    simp [List.length_append] at hld
    omega
  have hA : code.length - rem.length = s + nm.length + 1 := by omega
  refine ⟨?_, hA⟩
  rw [hA]
  have hdd : code.drop (s + nm.length + 1) = (code.drop s).drop (nm.length + 1) := by
    rw [List.drop_drop]
    have hc : s + nm.length + 1 = s + (nm.length + 1) := by omega
    rw [hc]
  rw [hdd, htext, List.drop_append_eq_append_drop,
    List.drop_eq_nil_of_le (by omega : nm.length ≤ nm.length + 1)]
  have h1 : nm.length + 1 - nm.length = 1 := by omega
  rw [h1]
  simp

lemma resolveOnceGo_all_unknown (code : Str) (reg : FunctionRegistry)
    (hyp : ∀ i, i < code.length →
      ((callMatchAt (code.drop i)).all fun m => (lookupLast reg m.1).isNone) = true) :
    ∀ (fuel p : Nat) (acc : Str),
      resolveOnceGo code reg fuel p p acc = .ok (acc ++ code.drop p) := by
  intro fuel
  induction fuel with
  | zero => intro p acc; rfl
  | succ f ih =>
    intro p acc
    cases hnext : nextMatchFrom callMatchAt code p with
    | none => simp [resolveOnceGo, hnext]
    | some sm =>
      obtain ⟨s, nm, rem⟩ := sm
      obtain ⟨hps, hs, hm⟩ := nextMatchFrom_sound callMatchAt code p s (nm, rem) hnext
      have hunk : lookupLast reg nm = none := by
        have hh := hyp s hs
        rw [hm] at hh
        simpa [Option.all, Option.isNone_iff_eq_none] using hh
      obtain ⟨hdropA, _⟩ := drop_lengthSub_of_callMatch hm hs
      simp only [resolveOnceGo, hnext, hunk]
      rw [ih]
      have htext := (callMatchAt_text hm).1
      have hdp : code.drop p = sliceJS code p s ++ code.drop s :=
        drop_eq_sliceJS_append code p s hps
      rw [hdropA, hdp, htext]
      have hp1 : toStr "(" = ['('] := rfl
      simp [hp1]

/-- C6 amended: `resolveOnce` emits an unknown call identifier and its
opening parenthesis unchanged and resumes scanning right after that
parenthesis; consequently a text none of whose call sites has a
registered identifier is returned entirely unchanged (and without
error).  The argument list of an unknown call may still be rewritten
when it contains a registered call (see the counterexample). -/
theorem c6_all_unknown_calls_identity :
    ∀ (registry : FunctionRegistry) (code : Str),
      (∀ i, i < code.length →
        ((callMatchAt (code.drop i)).all fun m => (lookupLast registry m.1).isNone) = true) →
      resolveOnce code registry = .ok code := by
  intro registry code hyp
  unfold resolveOnce
  rw [resolveOnceGo_all_unknown code registry hyp]
  simp

/-- Closed instance of the amended C6 theorem: `--z(--q(5))` references
only unregistered identifiers, so `resolveOnce` returns it unchanged. -/
theorem c6_all_unknown_calls_identity_witness :
    (∀ i, i < (toStr "--z(--q(5))").length →
      ((callMatchAt ((toStr "--z(--q(5))").drop i)).all
        fun m => (lookupLast c6Reg m.1).isNone) = true) ∧
    resolveOnce (toStr "--z(--q(5))") c6Reg = .ok (toStr "--z(--q(5))") :=
  ⟨by decide, c6_all_unknown_calls_identity c6Reg (toStr "--z(--q(5))") (by decide)⟩

lemma applyMatchAt_unknown_shape (rest : Str) (hne : rest ≠ [])
    (hw : ∀ c ∈ rest, isWordDash c = true) :
    applyMatchAt ('@' :: 'a' :: 'p' :: 'p' :: 'l' :: 'y' :: ' ' :: '-' :: '-' :: (rest ++ [';'])) =
      some ⟨'-' :: '-' :: rest, none, none, []⟩ := by
  obtain ⟨htw, hdw⟩ := takeWhile_append_stop rest ';' [] hw (by rfl)
  have hre : rest.isEmpty = false := by
    cases rest with
    | nil => exact absurd rfl hne
    | cons a b => rfl
  simp [applyMatchAt, expectLit, List.dropWhile_cons, isSpace, htw, hdw, hre, applyTerminator]

lemma nextMatchFromAux_succ {μ : Type} (matchAt : Str → Option μ) (code : Str) (fuel i : Nat) :
    nextMatchFromAux matchAt code (fuel + 1) i =
      match matchAt (code.drop i) with
      | some m => some (i, m)
      | none => nextMatchFromAux matchAt code fuel (i + 1) := rfl

lemma resolveMixinsOnceGo_succ (code : Str) (reg : MixinRegistry)
    (fuel scanPos lastIdx : Nat) (acc : Str) :
    resolveMixinsOnceGo code reg (fuel + 1) scanPos lastIdx acc =
      match nextMatchFrom applyMatchAt code scanPos with
      | none => acc ++ code.drop lastIdx
      | some (s, m) =>
        let matchEnd := code.length - m.rem.length
        let acc1 := acc ++ sliceJS code lastIdx s
        match lookupLast reg m.mixinName with
        | none =>
          resolveMixinsOnceGo code reg fuel matchEnd matchEnd
            (acc1 ++ toStr "/* Unknown mixin: " ++ m.mixinName ++ toStr " */")
        | some def_ =>
          let args := match m.argsStr with | some a => splitByComma a | none => []
          let substituted := substituteEnvVars def_.body def_.params args
          resolveMixinsOnceGo code reg fuel matchEnd matchEnd
            (acc1 ++ applyContents def_ m.contentsBlock substituted) := rfl

lemma resolveMixinsOnceGo_stop (code : Str) (reg : MixinRegistry) (fuel i : Nat) (acc : Str)
    (h : nextMatchFrom applyMatchAt code i = none) :
    resolveMixinsOnceGo code reg fuel i i acc = acc ++ code.drop i := by
  cases fuel with
  | zero => rfl
  | succ f => rw [resolveMixinsOnceGo_succ, h]

/-- C5 counterexample: for an unknown mixin whose contents block contains
nested braces, the regex match for the apply site is truncated at the
first closing brace, so only that prefix of the site is replaced by the
diagnostic comment and the final brace remains in the output — the
entire apply site is not replaced. -/
theorem c5_counterexample :
    resolveMixinsOnce (toStr "@apply --lost \x7b a \x7b b \x7d \x7d") [] =
      toStr "/* Unknown mixin: --lost */\x7d" ∧
    ¬ (resolveMixinsOnce (toStr "@apply --lost \x7b a \x7b b \x7d \x7d") [] =
        toStr "/* Unknown mixin: --lost */") := by
  refine ⟨by decide, by decide⟩

/-- C5 amended: an `@apply` site whose mixin name is not registered has
its matched extent replaced by the inline diagnostic comment naming the
missing mixin, without throwing and without deleting the site silently,
and processing continues over the rest of the text.  For a site of the
form `@apply --name;` the matched extent is the entire site (first
conjunct, for an arbitrary registry and an arbitrary well-formed mixin
name); two unknown sites in one text each produce their comment while
the text between them is preserved (second conjunct); when the contents
block holds nested braces the match is truncated at the first closing
brace and the residue stays in the output (third conjunct). -/
theorem c5_unknown_mixin_comment :
    (∀ (registry : MixinRegistry) (rest : Str),
      rest ≠ [] → (∀ c ∈ rest, isWordDash c = true) →
      lookupLast registry ('-' :: '-' :: rest) = none →
      resolveMixinsOnce (toStr "@apply --" ++ rest ++ toStr ";") registry =
        toStr "/* Unknown mixin: --" ++ rest ++ toStr " */") ∧
    resolveMixinsOnce (toStr "@apply --aa; x @apply --bb;") [] =
      toStr "/* Unknown mixin: --aa */ x /* Unknown mixin: --bb */" ∧
    resolveMixinsOnce (toStr "@apply --gone \x7b p \x7b q \x7d \x7d") [] =
      toStr "/* Unknown mixin: --gone */\x7d" := by
  refine ⟨?_, by decide, by decide⟩
  · intro registry rest hne hw hlook
    have hform : toStr "@apply --" ++ rest ++ toStr ";" =
        '@' :: 'a' :: 'p' :: 'p' :: 'l' :: 'y' :: ' ' :: '-' :: '-' :: (rest ++ [';']) := by
      have h1 : toStr "@apply --" = ['@', 'a', 'p', 'p', 'l', 'y', ' ', '-', '-'] := rfl
      have h2 : toStr ";" = [';'] := rfl
      rw [h1, h2]
      simp
    rw [hform]
    set code := '@' :: 'a' :: 'p' :: 'p' :: 'l' :: 'y' :: ' ' :: '-' :: '-' :: (rest ++ [';'])
      with hcode
    have hlen : code.length = rest.length + 10 := by
      simp [hcode, List.length_append]
    have hmatch : applyMatchAt code = some ⟨'-' :: '-' :: rest, none, none, []⟩ :=
      applyMatchAt_unknown_shape rest hne hw
    have hnext : nextMatchFrom applyMatchAt code 0 =
        some (0, ⟨'-' :: '-' :: rest, none, none, []⟩) := by
      unfold nextMatchFrom
      have h0 : code.length - 0 = rest.length + 9 + 1 := by omega
      rw [h0, nextMatchFromAux_succ, List.drop_zero, hmatch]
    have hstop : nextMatchFrom applyMatchAt code code.length = none :=
      nextMatchFrom_none_of_ge applyMatchAt code code.length (le_refl _)
    show resolveMixinsOnceGo code registry (code.length + 1) 0 0 [] = _
    have h1 : code.length + 1 = (rest.length + 10) + 1 := by omega
    rw [h1, resolveMixinsOnceGo_succ, hnext]
    simp only [hlook, List.length_nil, Nat.sub_zero]
    rw [resolveMixinsOnceGo_stop code registry _ _ _ hstop]
    rw [List.drop_length]
    have h3 : toStr "/* Unknown mixin: --" = toStr "/* Unknown mixin: " ++ ['-', '-'] := rfl
    rw [h3]
    simp [sliceJS]

/-- Closed instance of the C5 theorem: the unknown mixin `--nope` with the
empty registry. -/
theorem c5_unknown_mixin_comment_witness :
    ((toStr "nope" ≠ []) ∧ (∀ c ∈ toStr "nope", isWordDash c = true) ∧
      lookupLast ([] : MixinRegistry) ('-' :: '-' :: toStr "nope") = none) ∧
    resolveMixinsOnce (toStr "@apply --" ++ toStr "nope" ++ toStr ";") [] =
      toStr "/* Unknown mixin: --" ++ toStr "nope" ++ toStr " */" :=
  ⟨⟨by decide, by decide, by decide⟩,
    c5_unknown_mixin_comment.1 [] (toStr "nope") (by decide) (by decide) (by decide)⟩
